import Mathlib

/-!
Shallow embedding of the watermark-removal core of the repository
(`src/worker.js` and `src/script.js`): mask calibration, mode resolution,
placement, and the per-pixel alpha unblend loop. JS numbers are modelled as
rationals, the RGBA byte buffer as a `List Nat`, and the in-place mutation of
the `Uint8ClampedArray` as explicit list updates.
-/

namespace GeminiWatermark

/-- The `forceMode` field of the per-image config (`'auto' | 'small' | 'large'`). -/
inductive Mode where
  | auto
  | small
  | large
deriving DecidableEq

/-- An opacity mask as stored in `masks.small` / `masks.large`:
`{ width, height, alphas }` with one alpha per pixel. -/
structure Mask where
  width : Nat
  height : Nat
  alphas : List ℚ

/-- An `ImageData`-like pixel buffer: interleaved RGBA bytes, row-major. -/
structure ImageData where
  width : Nat
  height : Nat
  data : List Nat

/-- The per-image config `{ forceMode, alphaGain }`. -/
structure Config where
  forceMode : Mode
  alphaGain : ℚ

/-- The worker-global `masks` record `{ small, large }`, each possibly unset. -/
structure MasksState where
  small : Option Mask
  large : Option Mask

/-- Rounding of a float stored into a `Uint8ClampedArray` slot: round to
nearest, ties to even (the conversion JavaScript applies after clamping). -/
def roundHalfEven (q : ℚ) : ℤ :=
  if q - ⌊q⌋ < 1/2 then ⌊q⌋
  else if (1 : ℚ)/2 < q - ⌊q⌋ then ⌊q⌋ + 1
  else if ⌊q⌋ % 2 = 0 then ⌊q⌋ else ⌊q⌋ + 1

/-- The per-channel body of the innermost loop of `removeWatermark`:
`original = (currentVal - alpha * 255.0) / oneMinusAlpha`, clamped to
`[0, 255]`, then stored as a byte. -/
def unblendChannel (alpha : ℚ) (currentVal : Nat) : Nat :=
  let original := ((currentVal : ℚ) - alpha * 255) / (1 - alpha)
  let original2 := if original < 0 then 0 else original
  let original3 := if 255 < original2 then 255 else original2
  (roundHalfEven original3).toNat

/-- The `for (let c = 0; c < 3; c++)` channel loop: sequentially overwrite the
R, G and B bytes at `idx`, `idx+1`, `idx+2`. -/
def writeChannels (alpha : ℚ) (idx : Nat) (data : List Nat) : List Nat :=
  let d0 := data.set idx (unblendChannel alpha (data.getD idx 0))
  let d1 := d0.set (idx + 1) (unblendChannel alpha (d0.getD (idx + 1) 0))
  d1.set (idx + 2) (unblendChannel alpha (d1.getD (idx + 2) 0))

/-- One iteration of the per-pixel loop of `removeWatermark` at mask
coordinates `(mx, my)`: bounds guard, alpha lookup and gain, threshold skip,
alpha clamp, then the channel writes. -/
def processPixel (mask : Mask) (gain : ℚ) (w h posX posY my mx : Nat)
    (data : List Nat) : List Nat :=
  let iy := posY + my
  let ix := posX + mx
  if w ≤ ix ∨ h ≤ iy then data
  else
    let mIdx := my * mask.width + mx
    let alpha := mask.alphas.getD mIdx 0 * gain
    if alpha < 2/1000 then data
    else
      let alpha2 := if 99/100 < alpha then 99/100 else alpha
      writeChannels alpha2 ((iy * w + ix) * 4) data

/-- The inner `for (let mx = 0; mx < mask.width; mx++)` loop of one row. -/
def processRow (mask : Mask) (gain : ℚ) (w h posX posY my : Nat)
    (data : List Nat) : List Nat :=
  (List.range mask.width).foldl
    (fun d mx => processPixel mask gain w h posX posY my mx d) data

/-- The outer `for (let my = 0; my < mask.height; my++)` loop. -/
def processAll (mask : Mask) (gain : ℚ) (w h posX posY : Nat)
    (data : List Nat) : List Nat :=
  (List.range mask.height).foldl
    (fun d my => processRow mask gain w h posX posY my d) data

/-- Step 1 of `removeWatermark`: mode resolution
(`auto` selects `large` exactly when `w > 1024 && h > 1024`). -/
def resolveMode (forceMode : Mode) (w h : Nat) : Mode :=
  match forceMode with
  | Mode.auto => if 1024 < w ∧ 1024 < h then Mode.large else Mode.small
  | m => m

/-- The mask variant the resolved mode requires:
`mode === 'large' ? masks.large : masks.small`. -/
def requiredMask (cfg : Config) (masks : MasksState) (w h : Nat) : Option Mask :=
  if resolveMode cfg.forceMode w h = Mode.large then masks.large else masks.small

/-- `margin = mode === 'large' ? 64 : 32`. -/
def marginOf (mode : Mode) : Nat :=
  if mode = Mode.large then 64 else 32

/-- `removeWatermark(imageData, config)` from `worker.js`. The thrown
`Error('Masks not loaded yet')` is modelled as `Except.error`. -/
def removeWatermark (img : ImageData) (cfg : Config) (masks : MasksState) :
    Except String ImageData :=
  match requiredMask cfg masks img.width img.height with
  | none => Except.error "Masks not loaded yet"
  | some mask =>
    let mode := resolveMode cfg.forceMode img.width img.height
    let margin := marginOf mode
    let posX : ℤ := (img.width : ℤ) - margin - mask.width
    let posY : ℤ := (img.height : ℤ) - margin - mask.height
    if posX < 0 ∨ posY < 0 then Except.ok img
    else
      Except.ok { img with
        data := processAll mask cfg.alphaGain img.width img.height
                  posX.toNat posY.toNat img.data }

/-- `ImageProcessor.removeWatermark(imageData)` from `src/script.js`: the
main-thread copy of the pass. It is identical to the worker version except
for the missing-mask branch, which is `if (!mask) return;` — the function
returns with the buffer untouched and never raises an error. -/
def ImageProcessor.removeWatermark (img : ImageData) (cfg : Config)
    (masks : MasksState) : ImageData :=
  match requiredMask cfg masks img.width img.height with
  | none => img
  | some mask =>
    let mode := resolveMode cfg.forceMode img.width img.height
    let margin := marginOf mode
    let posX : ℤ := (img.width : ℤ) - margin - mask.width
    let posY : ℤ := (img.height : ℤ) - margin - mask.height
    if posX < 0 ∨ posY < 0 then img
    else
      { img with
        data := processAll mask cfg.alphaGain img.width img.height
                  posX.toNat posY.toNat img.data }

/-- The pure per-pixel core of `loadMask` in `script.js`: from the decoded
RGBA bytes of a reference image of size `w × h`, build the opacity mask with
`alphas[i] = max(r, max(g, b)) / 255.0`. -/
def calibrateMask (w h : Nat) (data : List Nat) : Mask :=
  { width := w
    height := h
    alphas := (List.range (w * h)).map (fun i =>
      let r := data.getD (i * 4) 0
      let g := data.getD (i * 4 + 1) 0
      let b := data.getD (i * 4 + 2) 0
      (max r (max g b) : ℚ) / 255) }

/-- The value the pass leaves in one covered channel byte holding `v`, as a
function of the mask pixel: threshold skip, clamp, unblend. -/
def pixelOutcome (mask : Mask) (gain : ℚ) (my mx : Nat) (v : Nat) : Nat :=
  let alpha := mask.alphas.getD (my * mask.width + mx) 0 * gain
  if alpha < 2/1000 then v
  else unblendChannel (if 99/100 < alpha then 99/100 else alpha) v

/-! ### Concrete instances used to evaluate the development on closed inputs -/

/-- A 1×1 mask with alpha 1/2, inside the amended round-trip tolerance. -/
def c1Mask : Mask := ⟨1, 1, [1/2]⟩

/-- A 33×33 buffer whose bytes all hold 178 = round(0.5·255 + 0.5·100). -/
def c1Img : ImageData := ⟨33, 33, List.replicate 4356 178⟩

/-- The buffer `c1Img` after the pass (small mode, gain 1, mask at (0,0)). -/
def c1Out : ImageData := { c1Img with data := processAll c1Mask 1 33 33 0 0 c1Img.data }

/-- A 1×1 mask with alpha 0.98, above the threshold and below the 0.99 clamp. -/
def c1xMask : Mask := ⟨1, 1, [49/50]⟩

/-- A 33×33 buffer whose bytes all hold 252 = round(0.98·255 + 0.02·100). -/
def c1xImg : ImageData := ⟨33, 33, List.replicate 4356 252⟩

/-- A 1×1 mask used to exercise the no-fit branch. -/
def c4Mask : Mask := ⟨1, 1, [1/2]⟩

/-- A 10×10 buffer, too small for mask plus the 32-pixel small margin. -/
def c4Img : ImageData := ⟨10, 10, List.replicate 400 7⟩

/-- A 1×1 mask with constant alpha 0.001, below the 0.002 threshold. -/
def c7Mask : Mask := ⟨1, 1, [1/1000]⟩

/-- A 33×33 buffer whose bytes all hold 100. -/
def c7Img : ImageData := ⟨33, 33, List.replicate 4356 100⟩

/-- The buffer `c7Img` after the pass with the sub-threshold mask. -/
def c7Out : ImageData := { c7Img with data := processAll c7Mask 1 33 33 0 0 c7Img.data }

/-- A 1×1 mask with alpha 1/2 used to exercise the frame property. -/
def c9Mask : Mask := ⟨1, 1, [1/2]⟩

/-- A 33×33 buffer whose bytes all hold 252. -/
def c9Img : ImageData := ⟨33, 33, List.replicate 4356 252⟩

/-- The buffer `c9Img` after the pass. -/
def c9Out : ImageData := { c9Img with data := processAll c9Mask 1 33 33 0 0 c9Img.data }

/-- A 1×1 mask with alpha 1/2 used to exercise monotonicity. -/
def c10Mask : Mask := ⟨1, 1, [1/2]⟩

/-- A 33×33 buffer whose bytes all hold 252. -/
def c10Img : ImageData := ⟨33, 33, List.replicate 4356 252⟩

/-- The buffer `c10Img` after the pass. -/
def c10Out : ImageData := { c10Img with data := processAll c10Mask 1 33 33 0 0 c10Img.data }

/-! ### Basic list access lemmas -/

theorem getD_set_ne (l : List Nat) {i j : Nat} (v : Nat) (h : i ≠ j) :
    (l.set i v).getD j 0 = l.getD j 0 := by
  rw [List.getD_eq_getElem?_getD, List.getD_eq_getElem?_getD, List.getElem?_set_ne h]

theorem getD_set_self (l : List Nat) {i : Nat} (v : Nat) (h : i < l.length) :
    (l.set i v).getD i 0 = v := by
  rw [List.getD_eq_getElem?_getD, List.getElem?_set_eq_of_lt v h]; rfl

/-! ### Properties of the ties-to-even rounding -/

theorem roundHalfEven_le (q : ℚ) : (roundHalfEven q : ℚ) ≤ q + 1/2 := by
  have h1 : (⌊q⌋ : ℚ) ≤ q := Int.floor_le q
  have h2 : q < ⌊q⌋ + 1 := Int.lt_floor_add_one q
  unfold roundHalfEven
  split
  · linarith
  · rename_i hlt
    push_neg at hlt
    split
    · push_cast; linarith
    · rename_i hgt
      push_neg at hgt
      split <;> push_cast <;> linarith

theorem le_roundHalfEven (q : ℚ) : q - 1/2 ≤ (roundHalfEven q : ℚ) := by
  have h1 : (⌊q⌋ : ℚ) ≤ q := Int.floor_le q
  have h2 : q < ⌊q⌋ + 1 := Int.lt_floor_add_one q
  unfold roundHalfEven
  split
  · rename_i hlt; linarith
  · rename_i hlt
    push_neg at hlt
    split
    · push_cast; linarith
    · rename_i hgt
      push_neg at hgt
      split <;> push_cast <;> linarith

theorem roundHalfEven_le_of_le {q : ℚ} {n : ℤ} (h : q ≤ (n : ℚ)) :
    roundHalfEven q ≤ n := by
  have h1 := roundHalfEven_le q
  have h2 : (roundHalfEven q : ℚ) < (n : ℚ) + 1 := by linarith
  have h3 : roundHalfEven q < n + 1 := by exact_mod_cast h2
  omega

theorem le_roundHalfEven_of_le {q : ℚ} {n : ℤ} (h : (n : ℚ) ≤ q) :
    n ≤ roundHalfEven q := by
  have h1 := le_roundHalfEven q
  have h2 : (n : ℚ) - 1 < (roundHalfEven q : ℚ) := by linarith
  have h3 : n - 1 < roundHalfEven q := by exact_mod_cast h2
  omega

theorem roundHalfEven_intCast (n : ℤ) : roundHalfEven (n : ℚ) = n := by
  unfold roundHalfEven
  rw [Int.floor_intCast]
  norm_num

/-! ### Properties of the per-channel unblend -/

theorem unblendChannel_le_255 (alpha : ℚ) (v : Nat) :
    unblendChannel alpha v ≤ 255 := by
  unfold unblendChannel
  simp only []
  rw [Int.toNat_le]
  apply roundHalfEven_le_of_le
  split
  · split <;> norm_num
  · split
    · norm_num
    · rename_i h1 h2
      push_neg at h1 h2
      push_cast
      linarith

theorem unblendChannel_le_self {alpha : ℚ} {v : Nat}
    (h0 : 0 < alpha) (h1 : alpha ≤ 99/100) (hv : v ≤ 255) :
    unblendChannel alpha v ≤ v := by
  have hden : (0 : ℚ) < 1 - alpha := by linarith
  have hv255 : (v : ℚ) ≤ 255 := by exact_mod_cast hv
  have hraw : ((v : ℚ) - alpha * 255) / (1 - alpha) ≤ v := by
    rw [div_le_iff hden]
    nlinarith
  unfold unblendChannel
  simp only []
  rw [Int.toNat_le]
  apply roundHalfEven_le_of_le
  push_cast
  split
  · split
    · rename_i ha hb; linarith
    · positivity
  · split
    · rename_i ha hb; push_neg at ha; linarith
    · exact hraw

theorem unblendChannel_clamps_low {alpha : ℚ} {v : Nat}
    (h : ((v : ℚ) - alpha * 255) / (1 - alpha) < 0) :
    unblendChannel alpha v = 0 := by
  unfold unblendChannel
  simp only []
  rw [if_pos h, if_neg (by norm_num)]
  have : roundHalfEven (0 : ℚ) = 0 := by
    have := roundHalfEven_intCast 0
    simpa using this
  rw [this]
  rfl

theorem unblendChannel_clamps_high {alpha : ℚ} {v : Nat}
    (h : 255 < ((v : ℚ) - alpha * 255) / (1 - alpha)) :
    unblendChannel alpha v = 255 := by
  have hn : ¬(((v : ℚ) - alpha * 255) / (1 - alpha) < 0) := by linarith
  unfold unblendChannel
  simp only []
  rw [if_neg hn, if_pos h]
  have : roundHalfEven (255 : ℚ) = 255 := by
    have := roundHalfEven_intCast 255
    simpa using this
  rw [this]
  rfl

theorem unblendChannel_roundtrip {alpha : ℚ} {o v : Nat}
    (h1 : 2/1000 ≤ alpha) (h2 : alpha < 2/3) (ho : o ≤ 255)
    (hv : |(v : ℚ) - (alpha * 255 + (1 - alpha) * o)| ≤ 1/2) :
    ((unblendChannel alpha v : ℤ) - o).natAbs ≤ 1 := by
  have hden : (1 : ℚ)/3 < 1 - alpha := by linarith
  have hden0 : (0 : ℚ) < 1 - alpha := by linarith
  have ho255 : (o : ℚ) ≤ 255 := by exact_mod_cast ho
  have ho0 : (0 : ℚ) ≤ o := by positivity
  set e : ℚ := (v : ℚ) - (alpha * 255 + (1 - alpha) * o) with he
  have habs := abs_le.mp hv
  set raw : ℚ := ((v : ℚ) - alpha * 255) / (1 - alpha) with hraw
  have hrawo : raw - o = e / (1 - alpha) := by
    rw [hraw, he]
    field_simp
    ring
  have hub : raw - o < 3/2 := by
    rw [hrawo]
    rw [div_lt_iff hden0]
    nlinarith [habs.2]
  have hlb : -(3/2) < raw - o := by
    rw [hrawo]
    rw [neg_lt, ← neg_div]
    rw [div_lt_iff hden0]
    nlinarith [habs.1]
  have key : ∀ r3 : ℚ, 0 ≤ r3 → -(3/2) < r3 - o → r3 - o < 3/2 →
      ((roundHalfEven r3).toNat : ℤ) - o ≤ 1 ∧
      -1 ≤ ((roundHalfEven r3).toNat : ℤ) - o := by
    intro r3 h3 hl hu
    have hnn : 0 ≤ roundHalfEven r3 :=
      le_roundHalfEven_of_le (n := 0) (by exact_mod_cast h3)
    rw [Int.toNat_of_nonneg hnn]
    have hle := roundHalfEven_le r3
    have hge := le_roundHalfEven r3
    constructor
    · have : (roundHalfEven r3 : ℚ) < (o : ℚ) + 2 := by linarith
      have h4 : roundHalfEven r3 < (o : ℤ) + 2 := by exact_mod_cast this
      omega
    · have : (o : ℚ) - 2 < (roundHalfEven r3 : ℚ) := by linarith
      have h4 : (o : ℤ) - 2 < roundHalfEven r3 := by exact_mod_cast this
      omega
  unfold unblendChannel
  simp only []
  rw [← hraw]
  split
  · rename_i hneg
    rw [if_neg (by norm_num)]
    have := key 0 le_rfl (by linarith) (by linarith)
    omega
  · rename_i hnneg
    push_neg at hnneg
    split
    · rename_i hbig
      have := key 255 (by norm_num) (by linarith) (by linarith)
      omega
    · rename_i hbig
      push_neg at hbig
      have := key raw hnneg hlb hub
      omega

/-! ### Length preservation -/

theorem length_writeChannels (alpha : ℚ) (idx : Nat) (data : List Nat) :
    (writeChannels alpha idx data).length = data.length := by
  unfold writeChannels
  simp [List.length_set]

theorem length_processPixel (mask : Mask) (gain : ℚ) (w h posX posY my mx : Nat)
    (data : List Nat) :
    (processPixel mask gain w h posX posY my mx data).length = data.length := by
  unfold processPixel
  dsimp only
  split
  · rfl
  · split
    · rfl
    · exact length_writeChannels ..

theorem length_processRow (mask : Mask) (gain : ℚ) (w h posX posY my : Nat)
    (data : List Nat) :
    (processRow mask gain w h posX posY my data).length = data.length := by
  unfold processRow
  generalize List.range mask.width = xs
  induction xs generalizing data with
  | nil => rfl
  | cons x xs ih =>
    rw [List.foldl_cons, ih, length_processPixel]

theorem length_processAll (mask : Mask) (gain : ℚ) (w h posX posY : Nat)
    (data : List Nat) :
    (processAll mask gain w h posX posY data).length = data.length := by
  unfold processAll
  generalize List.range mask.height = ys
  induction ys generalizing data with
  | nil => rfl
  | cons y ys ih =>
    rw [List.foldl_cons, ih, length_processRow]

/-! ### Frame lemmas: bytes outside the written channel slots are unchanged -/

theorem getD_writeChannels_ne (alpha : ℚ) (idx : Nat) (data : List Nat) {p : Nat}
    (hp : ∀ c, c < 3 → p ≠ idx + c) :
    (writeChannels alpha idx data).getD p 0 = data.getD p 0 := by
  unfold writeChannels
  rw [getD_set_ne _ _ (fun he => hp 2 (by omega) (by omega)),
      getD_set_ne _ _ (fun he => hp 1 (by omega) (by omega)),
      getD_set_ne _ _ (fun he => hp 0 (by omega) (by omega))]

theorem getD_processPixel_ne (mask : Mask) (gain : ℚ) (w h posX posY my mx : Nat)
    (data : List Nat) {p : Nat}
    (hp : posX + mx < w → posY + my < h →
      ∀ c, c < 3 → p ≠ ((posY + my) * w + (posX + mx)) * 4 + c) :
    (processPixel mask gain w h posX posY my mx data).getD p 0 = data.getD p 0 := by
  unfold processPixel
  dsimp only
  split
  · rfl
  · rename_i hguard
    push_neg at hguard
    split
    · rfl
    · exact getD_writeChannels_ne _ _ _ (hp hguard.1 hguard.2)

theorem getD_foldl_pixels_ne (mask : Mask) (gain : ℚ) (w h posX posY my : Nat)
    (xs : List Nat) (data : List Nat) {p : Nat}
    (hp : ∀ mx ∈ xs, posX + mx < w → posY + my < h →
      ∀ c, c < 3 → p ≠ ((posY + my) * w + (posX + mx)) * 4 + c) :
    ((xs.foldl (fun d mx => processPixel mask gain w h posX posY my mx d)
      data).getD p 0) = data.getD p 0 := by
  induction xs generalizing data with
  | nil => rfl
  | cons x xs ih =>
    rw [List.foldl_cons,
        ih _ (fun mx hmx => hp mx (List.mem_cons_of_mem _ hmx)),
        getD_processPixel_ne _ _ _ _ _ _ _ _ _ (hp x (List.mem_cons_self _ _))]

theorem getD_processRow_ne (mask : Mask) (gain : ℚ) (w h posX posY my : Nat)
    (data : List Nat) {p : Nat}
    (hp : ∀ mx, mx < mask.width → posX + mx < w → posY + my < h →
      ∀ c, c < 3 → p ≠ ((posY + my) * w + (posX + mx)) * 4 + c) :
    (processRow mask gain w h posX posY my data).getD p 0 = data.getD p 0 := by
  unfold processRow
  exact getD_foldl_pixels_ne _ _ _ _ _ _ _ _ _
    (fun mx hmx => hp mx (List.mem_range.mp hmx))

theorem getD_foldl_rows_ne (mask : Mask) (gain : ℚ) (w h posX posY : Nat)
    (ys : List Nat) (data : List Nat) {p : Nat}
    (hp : ∀ my ∈ ys, ∀ mx, mx < mask.width → posX + mx < w → posY + my < h →
      ∀ c, c < 3 → p ≠ ((posY + my) * w + (posX + mx)) * 4 + c) :
    ((ys.foldl (fun d my => processRow mask gain w h posX posY my d)
      data).getD p 0) = data.getD p 0 := by
  induction ys generalizing data with
  | nil => rfl
  | cons y ys ih =>
    rw [List.foldl_cons,
        ih _ (fun my hmy => hp my (List.mem_cons_of_mem _ hmy)),
        getD_processRow_ne _ _ _ _ _ _ _ _ (hp y (List.mem_cons_self _ _))]

theorem getD_processAll_ne (mask : Mask) (gain : ℚ) (w h posX posY : Nat)
    (data : List Nat) {p : Nat}
    (hp : ∀ my, my < mask.height → ∀ mx, mx < mask.width →
      posX + mx < w → posY + my < h →
      ∀ c, c < 3 → p ≠ ((posY + my) * w + (posX + mx)) * 4 + c) :
    (processAll mask gain w h posX posY data).getD p 0 = data.getD p 0 := by
  unfold processAll
  exact getD_foldl_rows_ne _ _ _ _ _ _ _ _
    (fun my hmy => hp my (List.mem_range.mp hmy))

/-! ### Point lemmas: the value left in a covered channel byte -/

theorem length_foldl_pixels (mask : Mask) (gain : ℚ) (w h posX posY my : Nat)
    (xs : List Nat) (data : List Nat) :
    ((xs.foldl (fun d mx => processPixel mask gain w h posX posY my mx d)
      data).length) = data.length := by
  induction xs generalizing data with
  | nil => rfl
  | cons x xs ih => rw [List.foldl_cons, ih, length_processPixel]

theorem length_foldl_rows (mask : Mask) (gain : ℚ) (w h posX posY : Nat)
    (ys : List Nat) (data : List Nat) :
    ((ys.foldl (fun d my => processRow mask gain w h posX posY my d)
      data).length) = data.length := by
  induction ys generalizing data with
  | nil => rfl
  | cons y ys ih => rw [List.foldl_cons, ih, length_processRow]

theorem rowBase_lt_of_lt {w r r' a b : Nat} (ha : a < w) (hr : r < r') :
    r * w + a < r' * w + b := by
  have h1 : r * w + a < (r + 1) * w := by
    have : r * w + a < r * w + w := by omega
    linarith [this, (Nat.succ_mul r w).symm]
  have h2 : (r + 1) * w ≤ r' * w := Nat.mul_le_mul_right w hr
  omega

theorem rowBase_ne {w r r' a b : Nat} (ha : a < w) (hb : b < w) (hr : r ≠ r') :
    r * w + a ≠ r' * w + b := by
  rcases Nat.lt_or_ge r r' with h | h
  · exact Nat.ne_of_lt (rowBase_lt_of_lt ha h)
  · have h2 : r' < r := by omega
    exact (Nat.ne_of_lt (rowBase_lt_of_lt hb h2)).symm

theorem rowBase_lt_total {w h r a : Nat} (hr : r < h) (ha : a < w) :
    r * w + a < h * w := by
  have h1 : r * w + a < (r + 1) * w := by
    have : r * w + a < r * w + w := by omega
    linarith [(Nat.succ_mul r w).symm]
  have h2 : (r + 1) * w ≤ h * w := Nat.mul_le_mul_right w hr
  omega

theorem getD_writeChannels_point (alpha : ℚ) (idx : Nat) (data : List Nat) {c : Nat}
    (hc : c < 3) (hlen : idx + 2 < data.length) :
    (writeChannels alpha idx data).getD (idx + c) 0
      = unblendChannel alpha (data.getD (idx + c) 0) := by
  unfold writeChannels
  dsimp only
  interval_cases c
  · rw [getD_set_ne _ _ (by omega), getD_set_ne _ _ (by omega)]
    rw [Nat.add_zero]
    rw [getD_set_self _ _ (by omega)]
  · rw [getD_set_ne _ _ (by omega)]
    rw [getD_set_self _ _ (by rw [List.length_set]; omega)]
    rw [getD_set_ne _ _ (by omega)]
  · rw [getD_set_self _ _ (by rw [List.length_set, List.length_set]; omega)]
    rw [getD_set_ne _ _ (by omega), getD_set_ne _ _ (by omega)]

theorem getD_processPixel_point (mask : Mask) (gain : ℚ)
    (w h posX posY my mx : Nat) (data : List Nat) {c : Nat}
    (hx : posX + mx < w) (hy : posY + my < h) (hc : c < 3)
    (hlen : data.length = w * h * 4) :
    (processPixel mask gain w h posX posY my mx data).getD
        (((posY + my) * w + (posX + mx)) * 4 + c) 0
      = pixelOutcome mask gain my mx
          (data.getD (((posY + my) * w + (posX + mx)) * 4 + c) 0) := by
  have hbase : (posY + my) * w + (posX + mx) < h * w := rowBase_lt_total hy hx
  have hcomm : h * w = w * h := Nat.mul_comm h w
  unfold processPixel pixelOutcome
  dsimp only
  rw [if_neg (by omega)]
  split
  · rfl
  · exact getD_writeChannels_point _ _ _ hc (by omega)

theorem getD_processRow_point (mask : Mask) (gain : ℚ)
    (w h posX posY my mx : Nat) (data : List Nat) {c : Nat}
    (hmx : mx < mask.width) (hx : posX + mx < w) (hy : posY + my < h) (hc : c < 3)
    (hlen : data.length = w * h * 4) :
    (processRow mask gain w h posX posY my data).getD
        (((posY + my) * w + (posX + mx)) * 4 + c) 0
      = pixelOutcome mask gain my mx
          (data.getD (((posY + my) * w + (posX + mx)) * 4 + c) 0) := by
  have h0 : mask.width - mx - 1 + (mx + 1) = mask.width := by omega
  have hsplit : List.range mask.width
      = List.range' 0 mx ++ mx :: List.range' (mx + 1) (mask.width - mx - 1) := by
    have ha := List.range'_append 0 mx (mask.width - mx - 1 + 1) 1
    simp only [Nat.zero_add, Nat.one_mul] at ha
    rw [List.range'_succ] at ha
    have hw : mask.width = mask.width - mx - 1 + 1 + mx := by omega
    conv_lhs => rw [List.range_eq_range', hw]
    exact ha.symm
  unfold processRow
  rw [hsplit, List.foldl_append, List.foldl_cons]
  have hpre : ∀ mx2 ∈ List.range' 0 mx, posX + mx2 < w → posY + my < h →
      ∀ c2, c2 < 3 →
      ((posY + my) * w + (posX + mx)) * 4 + c
        ≠ ((posY + my) * w + (posX + mx2)) * 4 + c2 := by
    intro mx2 hmem _ _ c2 hc2
    have : mx2 < mx := by
      rcases List.mem_range'.mp hmem with ⟨i, hi, he⟩
      omega
    omega
  have hpost : ∀ mx2 ∈ List.range' (mx + 1) (mask.width - mx - 1),
      posX + mx2 < w → posY + my < h → ∀ c2, c2 < 3 →
      ((posY + my) * w + (posX + mx)) * 4 + c
        ≠ ((posY + my) * w + (posX + mx2)) * 4 + c2 := by
    intro mx2 hmem _ _ c2 hc2
    have : mx + 1 ≤ mx2 := by
      rcases List.mem_range'.mp hmem with ⟨i, hi, he⟩
      omega
    omega
  rw [getD_foldl_pixels_ne _ _ _ _ _ _ _ _ _ hpost]
  rw [getD_processPixel_point _ _ _ _ _ _ _ _ _ hx hy hc
    (by rw [length_foldl_pixels]; exact hlen)]
  rw [getD_foldl_pixels_ne _ _ _ _ _ _ _ _ _ hpre]

theorem getD_processAll_point (mask : Mask) (gain : ℚ)
    (w h posX posY mx my : Nat) (data : List Nat) {c : Nat}
    (hmx : mx < mask.width) (hmy : my < mask.height)
    (hx : posX + mx < w) (hy : posY + my < h) (hc : c < 3)
    (hlen : data.length = w * h * 4) :
    (processAll mask gain w h posX posY data).getD
        (((posY + my) * w + (posX + mx)) * 4 + c) 0
      = pixelOutcome mask gain my mx
          (data.getD (((posY + my) * w + (posX + mx)) * 4 + c) 0) := by
  have hsplit : List.range mask.height
      = List.range' 0 my ++ my :: List.range' (my + 1) (mask.height - my - 1) := by
    have ha := List.range'_append 0 my (mask.height - my - 1 + 1) 1
    simp only [Nat.zero_add, Nat.one_mul] at ha
    rw [List.range'_succ] at ha
    have hw : mask.height = mask.height - my - 1 + 1 + my := by omega
    conv_lhs => rw [List.range_eq_range', hw]
    exact ha.symm
  unfold processAll
  rw [hsplit, List.foldl_append, List.foldl_cons]
  have hpre : ∀ my2 ∈ List.range' 0 my, ∀ mx2, mx2 < mask.width →
      posX + mx2 < w → posY + my2 < h → ∀ c2, c2 < 3 →
      ((posY + my) * w + (posX + mx)) * 4 + c
        ≠ ((posY + my2) * w + (posX + mx2)) * 4 + c2 := by
    intro my2 hmem mx2 _ hx2 _ c2 hc2
    have hlt : my2 < my := by
      rcases List.mem_range'.mp hmem with ⟨i, hi, he⟩
      omega
    have hne : (posY + my) * w + (posX + mx) ≠ (posY + my2) * w + (posX + mx2) :=
      rowBase_ne hx hx2 (by omega)
    omega
  have hpost : ∀ my2 ∈ List.range' (my + 1) (mask.height - my - 1),
      ∀ mx2, mx2 < mask.width → posX + mx2 < w → posY + my2 < h →
      ∀ c2, c2 < 3 →
      ((posY + my) * w + (posX + mx)) * 4 + c
        ≠ ((posY + my2) * w + (posX + mx2)) * 4 + c2 := by
    intro my2 hmem mx2 _ hx2 _ c2 hc2
    have hlt : my + 1 ≤ my2 := by
      rcases List.mem_range'.mp hmem with ⟨i, hi, he⟩
      omega
    have hne : (posY + my) * w + (posX + mx) ≠ (posY + my2) * w + (posX + mx2) :=
      rowBase_ne hx hx2 (by omega)
    omega
  have hrow : ∀ d2 : List Nat, ∀ my2 ∈ List.range' 0 my,
      (processRow mask gain w h posX posY my2 d2).getD
        (((posY + my) * w + (posX + mx)) * 4 + c) 0
        = d2.getD (((posY + my) * w + (posX + mx)) * 4 + c) 0 := by
    intro d2 my2 hmem
    exact getD_processRow_ne _ _ _ _ _ _ _ _
      (fun mx2 hmx2 hx2 hy2 c2 hc2 => hpre my2 hmem mx2 hmx2 hx2 hy2 c2 hc2)
  rw [getD_foldl_rows_ne _ _ _ _ _ _ _ _
    (fun my2 hmem mx2 hmx2 hx2 hy2 c2 hc2 => hpost my2 hmem mx2 hmx2 hx2 hy2 c2 hc2)]
  rw [getD_processRow_point _ _ _ _ _ _ _ _ _ hmx hx hy hc
    (by rw [length_foldl_rows]; exact hlen)]
  rw [getD_foldl_rows_ne _ _ _ _ _ _ _ _
    (fun my2 hmem mx2 hmx2 hx2 hy2 c2 hc2 => hpre my2 hmem mx2 hmx2 hx2 hy2 c2 hc2)]

/-! ### Pointwise monotonicity: the pass never increases a byte -/

theorem getD_set_self_eq_ite (l : List Nat) (i v : Nat) :
    (l.set i v).getD i 0 = if i < l.length then v else 0 := by
  rw [List.getD_eq_getElem?_getD, List.getElem?_set_self']
  by_cases h : i < l.length
  · rw [if_pos h, List.getElem?_eq_getElem h]
    rfl
  · rw [if_neg h, List.getElem?_eq_none (by omega)]
    rfl

theorem getD_le_255 {d : List Nat} (hd : ∀ x ∈ d, x ≤ 255) (q : Nat) :
    d.getD q 0 ≤ 255 := by
  by_cases hq : q < d.length
  · rw [List.getD_eq_getElem _ _ hq]
    exact hd _ (List.getElem_mem hq)
  · rw [List.getD_eq_default _ _ (by omega)]
    omega

theorem getD_writeChannels_le (alpha : ℚ) (idx : Nat) (d : List Nat)
    (h0 : 0 < alpha) (h1 : alpha ≤ 99/100)
    (h255 : ∀ q, d.getD q 0 ≤ 255) (p : Nat) :
    (writeChannels alpha idx d).getD p 0 ≤ d.getD p 0 := by
  unfold writeChannels
  dsimp only
  by_cases hp2 : p = idx + 2
  · subst hp2
    rw [getD_set_self_eq_ite]
    split
    · rw [getD_set_ne _ _ (by omega), getD_set_ne _ _ (by omega)]
      exact unblendChannel_le_self h0 h1 (h255 _)
    · omega
  · rw [getD_set_ne _ _ (Ne.symm hp2)]
    by_cases hp1 : p = idx + 1
    · subst hp1
      rw [getD_set_self_eq_ite]
      split
      · rw [getD_set_ne _ _ (by omega)]
        exact unblendChannel_le_self h0 h1 (h255 _)
      · omega
    · rw [getD_set_ne _ _ (Ne.symm hp1)]
      by_cases hp0 : p = idx
      · subst hp0
        rw [getD_set_self_eq_ite]
        split
        · exact unblendChannel_le_self h0 h1 (h255 _)
        · omega
      · rw [getD_set_ne _ _ (Ne.symm hp0)]

theorem getD_processPixel_le (mask : Mask) (gain : ℚ)
    (w h posX posY my mx : Nat) (d : List Nat)
    (h255 : ∀ q, d.getD q 0 ≤ 255) (p : Nat) :
    (processPixel mask gain w h posX posY my mx d).getD p 0 ≤ d.getD p 0 := by
  unfold processPixel
  dsimp only
  split
  · exact le_refl _
  · split
    · exact le_refl _
    · rename_i hth
      push_neg at hth
      have hpos : (0 : ℚ) < mask.alphas.getD (my * mask.width + mx) 0 * gain :=
        lt_of_lt_of_le (by norm_num) hth
      refine getD_writeChannels_le _ _ _ ?_ ?_ h255 p
      · split
        · norm_num
        · exact hpos
      · split
        · exact le_refl _
        · rename_i hcl
          push_neg at hcl
          exact hcl

theorem getD_foldl_pixels_le (mask : Mask) (gain : ℚ) (w h posX posY my : Nat)
    (xs : List Nat) (d : List Nat)
    (h255 : ∀ q, d.getD q 0 ≤ 255) (p : Nat) :
    ((xs.foldl (fun dd mx => processPixel mask gain w h posX posY my mx dd)
      d).getD p 0) ≤ d.getD p 0 := by
  induction xs generalizing d with
  | nil => exact le_refl _
  | cons x xs ih =>
    rw [List.foldl_cons]
    calc ((xs.foldl _ (processPixel mask gain w h posX posY my x d)).getD p 0)
        ≤ (processPixel mask gain w h posX posY my x d).getD p 0 :=
          ih _ (fun q => le_trans (getD_processPixel_le _ _ _ _ _ _ _ _ _ h255 q)
            (h255 q))
      _ ≤ d.getD p 0 := getD_processPixel_le _ _ _ _ _ _ _ _ _ h255 p

theorem getD_processRow_le (mask : Mask) (gain : ℚ) (w h posX posY my : Nat)
    (d : List Nat) (h255 : ∀ q, d.getD q 0 ≤ 255) (p : Nat) :
    (processRow mask gain w h posX posY my d).getD p 0 ≤ d.getD p 0 :=
  getD_foldl_pixels_le mask gain w h posX posY my (List.range mask.width) d h255 p

theorem getD_foldl_rows_le (mask : Mask) (gain : ℚ) (w h posX posY : Nat)
    (ys : List Nat) (d : List Nat)
    (h255 : ∀ q, d.getD q 0 ≤ 255) (p : Nat) :
    ((ys.foldl (fun dd my => processRow mask gain w h posX posY my dd)
      d).getD p 0) ≤ d.getD p 0 := by
  induction ys generalizing d with
  | nil => exact le_refl _
  | cons y ys ih =>
    rw [List.foldl_cons]
    calc ((ys.foldl _ (processRow mask gain w h posX posY y d)).getD p 0)
        ≤ (processRow mask gain w h posX posY y d).getD p 0 :=
          ih _ (fun q => le_trans (getD_processRow_le _ _ _ _ _ _ _ _ h255 q)
            (h255 q))
      _ ≤ d.getD p 0 := getD_processRow_le _ _ _ _ _ _ _ _ h255 p

theorem getD_processAll_le (mask : Mask) (gain : ℚ) (w h posX posY : Nat)
    (d : List Nat) (h255 : ∀ q, d.getD q 0 ≤ 255) (p : Nat) :
    (processAll mask gain w h posX posY d).getD p 0 ≤ d.getD p 0 :=
  getD_foldl_rows_le mask gain w h posX posY (List.range mask.height) d h255 p

/-! ### Shape of a `removeWatermark` call -/

theorem marginOf_pos (mode : Mode) : 0 < marginOf mode := by
  unfold marginOf
  split <;> norm_num

theorem removeWatermark_none {img : ImageData} {cfg : Config} {masks : MasksState}
    (hm : requiredMask cfg masks img.width img.height = none) :
    removeWatermark img cfg masks = Except.error "Masks not loaded yet" := by
  unfold removeWatermark
  rw [hm]

theorem removeWatermark_noFit {img : ImageData} {cfg : Config} {masks : MasksState}
    {mask : Mask}
    (hm : requiredMask cfg masks img.width img.height = some mask)
    (hs : (img.width : ℤ) - marginOf (resolveMode cfg.forceMode img.width img.height)
            - mask.width < 0
        ∨ (img.height : ℤ) - marginOf (resolveMode cfg.forceMode img.width img.height)
            - mask.height < 0) :
    removeWatermark img cfg masks = Except.ok img := by
  unfold removeWatermark
  rw [hm]
  dsimp only
  rw [if_pos hs]

theorem removeWatermark_fit {img : ImageData} {cfg : Config} {masks : MasksState}
    {mask : Mask}
    (hm : requiredMask cfg masks img.width img.height = some mask)
    (hfw : marginOf (resolveMode cfg.forceMode img.width img.height) + mask.width
            ≤ img.width)
    (hfh : marginOf (resolveMode cfg.forceMode img.width img.height) + mask.height
            ≤ img.height) :
    removeWatermark img cfg masks = Except.ok { img with
      data := processAll mask cfg.alphaGain img.width img.height
        (img.width - marginOf (resolveMode cfg.forceMode img.width img.height)
          - mask.width)
        (img.height - marginOf (resolveMode cfg.forceMode img.width img.height)
          - mask.height)
        img.data } := by
  unfold removeWatermark
  rw [hm]
  dsimp only
  rw [if_neg (by omega)]
  have e1 : ((img.width : ℤ)
      - marginOf (resolveMode cfg.forceMode img.width img.height)
      - mask.width).toNat
      = img.width - marginOf (resolveMode cfg.forceMode img.width img.height)
        - mask.width := by omega
  have e2 : ((img.height : ℤ)
      - marginOf (resolveMode cfg.forceMode img.width img.height)
      - mask.height).toNat
      = img.height - marginOf (resolveMode cfg.forceMode img.width img.height)
        - mask.height := by omega
  rw [e1, e2]

theorem removeWatermark_ok_cases {img : ImageData} {cfg : Config}
    {masks : MasksState} {mask : Mask} {out : ImageData}
    (hm : requiredMask cfg masks img.width img.height = some mask)
    (hok : removeWatermark img cfg masks = Except.ok out) :
    out = img
    ∨ (marginOf (resolveMode cfg.forceMode img.width img.height) + mask.width
          ≤ img.width
      ∧ marginOf (resolveMode cfg.forceMode img.width img.height) + mask.height
          ≤ img.height
      ∧ out = { img with
          data := processAll mask cfg.alphaGain img.width img.height
            (img.width - marginOf (resolveMode cfg.forceMode img.width img.height)
              - mask.width)
            (img.height - marginOf (resolveMode cfg.forceMode img.width img.height)
              - mask.height)
            img.data }) := by
  by_cases hfit : marginOf (resolveMode cfg.forceMode img.width img.height)
      + mask.width ≤ img.width
    ∧ marginOf (resolveMode cfg.forceMode img.width img.height) + mask.height
      ≤ img.height
  · right
    refine ⟨hfit.1, hfit.2, ?_⟩
    have hrw := removeWatermark_fit hm hfit.1 hfit.2
    have h2 := hrw.symm.trans hok
    injection h2 with h3
    exact h3.symm
  · left
    have hrw := removeWatermark_noFit hm (by omega)
    have h2 := hrw.symm.trans hok
    injection h2 with h3
    exact h3.symm

/-! ### Claim theorems -/

/-- C2: when the mask variant required by the resolved mode is unset, the
claim (and spec) requires the call to fail with a MasksNotReadyError, buffer
untouched. The worker copy (`removeWatermark` in `worker.js`) does exactly
that, but the main-thread copy cited by the claim
(`ImageProcessor.removeWatermark` in `script.js`) has `if (!mask) return;`
— it returns the buffer unchanged and never raises the error. This theorem
exhibits both behaviours on the same missing-mask input: the worker path
errors without producing a buffer, while the script path silently returns the
untouched buffer, contradicting the claimed error. -/
theorem masksNotReady_divergence (img : ImageData) (cfg : Config)
    (masks : MasksState)
    (hm : requiredMask cfg masks img.width img.height = none) :
    (removeWatermark img cfg masks = Except.error "Masks not loaded yet"
      ∧ ∀ out : ImageData, removeWatermark img cfg masks ≠ Except.ok out)
    ∧ ImageProcessor.removeWatermark img cfg masks = img := by
  refine ⟨⟨removeWatermark_none hm, ?_⟩, ?_⟩
  · intro out hok
    rw [removeWatermark_none hm] at hok
    exact Except.noConfusion hok
  · unfold ImageProcessor.removeWatermark
    rw [hm]

/-- C2 witness: on a concrete buffer with both mask slots unset, the worker
copy errors and the main-thread copy returns the buffer unchanged without
any error. -/
theorem masksNotReady_divergence_apply :
    removeWatermark ⟨1, 1, [0, 0, 0, 0]⟩ ⟨Mode.auto, 1⟩ ⟨none, none⟩
      = Except.error "Masks not loaded yet"
    ∧ ImageProcessor.removeWatermark ⟨1, 1, [0, 0, 0, 0]⟩ ⟨Mode.auto, 1⟩
        ⟨none, none⟩
      = ⟨1, 1, [0, 0, 0, 0]⟩ :=
  ⟨(masksNotReady_divergence ⟨1, 1, [0, 0, 0, 0]⟩ ⟨Mode.auto, 1⟩ ⟨none, none⟩
      rfl).1.1,
   (masksNotReady_divergence ⟨1, 1, [0, 0, 0, 0]⟩ ⟨Mode.auto, 1⟩ ⟨none, none⟩
      rfl).2⟩

/-- C3: mode resolution. With `forceMode = auto` the large mask is selected
exactly when both dimensions strictly exceed 1024 (so 1024×1024 resolves to
small and 1025×1025 to large); a forced mode is used regardless of size. -/
theorem mode_resolution (w h : Nat) :
    (resolveMode Mode.auto w h = Mode.large ↔ (1024 < w ∧ 1024 < h))
    ∧ (resolveMode Mode.auto w h = Mode.small ↔ ¬(1024 < w ∧ 1024 < h))
    ∧ resolveMode Mode.small w h = Mode.small
    ∧ resolveMode Mode.large w h = Mode.large
    ∧ resolveMode Mode.auto 1024 1024 = Mode.small
    ∧ resolveMode Mode.auto 1025 1025 = Mode.large := by
  refine ⟨?_, ?_, rfl, rfl, by norm_num [resolveMode], by norm_num [resolveMode]⟩
  · unfold resolveMode
    by_cases hwh : 1024 < w ∧ 1024 < h
    · simp [hwh]
    · simp [hwh]
  · unfold resolveMode
    by_cases hwh : 1024 < w ∧ 1024 < h
    · simp [hwh]
    · simp [hwh]

/-- C3 witness: the boundary cases instantiated. -/
theorem mode_resolution_apply :
    resolveMode Mode.auto 1024 1024 = Mode.small
      ∧ resolveMode Mode.auto 1025 1025 = Mode.large :=
  ⟨(mode_resolution 1024 1024).2.2.2.2.1, (mode_resolution 1025 1025).2.2.2.2.2⟩

/-- C4: when the watermark does not fit (`posX < 0` or `posY < 0`, with margin
64 in large mode and 32 in small mode), `removeWatermark` succeeds and
returns the buffer unchanged. -/
theorem noop_watermark_does_not_fit (img : ImageData) (cfg : Config)
    (masks : MasksState) (mask : Mask)
    (hm : requiredMask cfg masks img.width img.height = some mask)
    (hs : (img.width : ℤ) - marginOf (resolveMode cfg.forceMode img.width img.height)
            - mask.width < 0
        ∨ (img.height : ℤ) - marginOf (resolveMode cfg.forceMode img.width img.height)
            - mask.height < 0) :
    removeWatermark img cfg masks = Except.ok img :=
  removeWatermark_noFit hm hs

/-- C4 witness: a 10×10 buffer with a 1×1 small-mode mask (margin 32) is
returned byte-for-byte unchanged. -/
theorem noop_watermark_does_not_fit_apply :
    removeWatermark c4Img ⟨Mode.small, 1⟩ ⟨some c4Mask, none⟩ = Except.ok c4Img :=
  noop_watermark_does_not_fit c4Img ⟨Mode.small, 1⟩ ⟨some c4Mask, none⟩ c4Mask rfl
    (Or.inl (by decide))

/-- C6: alpha-gain clamping. Any two mask/gain pairs whose effective alpha at
the processed mask pixel is at least 0.99 produce identical output; in
particular effective alpha 1.5 behaves exactly like effective alpha 0.99. -/
theorem alpha_gain_clamped (m1 m2 : Mask) (g1 g2 : ℚ) (w h posX posY my mx : Nat)
    (data : List Nat)
    (h1 : 99/100 ≤ m1.alphas.getD (my * m1.width + mx) 0 * g1)
    (h2 : 99/100 ≤ m2.alphas.getD (my * m2.width + mx) 0 * g2) :
    processPixel m1 g1 w h posX posY my mx data
      = processPixel m2 g2 w h posX posY my mx data := by
  unfold processPixel
  dsimp only
  split
  · rfl
  · have e1 : (if 99/100 < m1.alphas.getD (my * m1.width + mx) 0 * g1 then (99 : ℚ)/100
        else m1.alphas.getD (my * m1.width + mx) 0 * g1) = 99/100 := by
      split
      · rfl
      · rename_i hcl
        push_neg at hcl
        linarith
    have e2 : (if 99/100 < m2.alphas.getD (my * m2.width + mx) 0 * g2 then (99 : ℚ)/100
        else m2.alphas.getD (my * m2.width + mx) 0 * g2) = 99/100 := by
      split
      · rfl
      · rename_i hcl
        push_neg at hcl
        linarith
    have hn1 : ¬(m1.alphas.getD (my * m1.width + mx) 0 * g1 < 2/1000) := by linarith
    have hn2 : ¬(m2.alphas.getD (my * m2.width + mx) 0 * g2 < 2/1000) := by linarith
    rw [if_neg hn1, if_neg hn2, e1, e2]

/-- C6 witness: a mask pixel of effective alpha 1.5 and one of effective alpha
0.99 write the same bytes. -/
theorem alpha_gain_clamped_apply :
    processPixel ⟨1, 1, [3/2]⟩ 1 1 1 0 0 0 0 [200, 150, 100, 255]
      = processPixel ⟨1, 1, [99/100]⟩ 1 1 1 0 0 0 0 [200, 150, 100, 255] :=
  alpha_gain_clamped ⟨1, 1, [3/2]⟩ ⟨1, 1, [99/100]⟩ 1 1 1 1 0 0 0 0
    [200, 150, 100, 255]
    (by norm_num [List.getD_cons_zero])
    (by norm_num [List.getD_cons_zero])

/-- C8: mask calibration. The calibrated mask keeps the reference dimensions,
has exactly `w*h` alphas, each equal to `max(R, G, B) / 255` of its pixel with
no further normalization, and (for byte-valued input) every alpha lies in
`[0, 1]`. -/
theorem mask_calibration (w h : Nat) (data : List Nat)
    (hdata : ∀ x ∈ data, x ≤ 255) :
    (calibrateMask w h data).width = w
    ∧ (calibrateMask w h data).height = h
    ∧ (calibrateMask w h data).alphas.length = w * h
    ∧ (∀ i, i < w * h → (calibrateMask w h data).alphas.getD i 0
        = (max (data.getD (i * 4) 0)
            (max (data.getD (i * 4 + 1) 0) (data.getD (i * 4 + 2) 0)) : ℚ) / 255)
    ∧ (∀ i, 0 ≤ (calibrateMask w h data).alphas.getD i 0
        ∧ (calibrateMask w h data).alphas.getD i 0 ≤ 1) := by
  have hgetD : ∀ i, i < w * h → (calibrateMask w h data).alphas.getD i 0
      = (max (data.getD (i * 4) 0)
          (max (data.getD (i * 4 + 1) 0) (data.getD (i * 4 + 2) 0)) : ℚ) / 255 := by
    intro i hi
    unfold calibrateMask
    dsimp only
    rw [List.getD_eq_getElem?_getD, List.getElem?_map, List.getElem?_range hi]
    rfl
  have hlength : (calibrateMask w h data).alphas.length = w * h := by
    unfold calibrateMask
    dsimp only
    rw [List.length_map, List.length_range]
  refine ⟨rfl, rfl, hlength, hgetD, ?_⟩
  intro i
  by_cases hi : i < w * h
  · rw [hgetD i hi]
    have hmax : (max (data.getD (i * 4) 0)
        (max (data.getD (i * 4 + 1) 0) (data.getD (i * 4 + 2) 0))) ≤ 255 := by
      have h1 := getD_le_255 hdata (i * 4)
      have h2 := getD_le_255 hdata (i * 4 + 1)
      have h3 := getD_le_255 hdata (i * 4 + 2)
      omega
    have hmaxq : ((max (data.getD (i * 4) 0)
        (max (data.getD (i * 4 + 1) 0) (data.getD (i * 4 + 2) 0))) : ℚ) ≤ 255 := by
      exact_mod_cast hmax
    constructor
    · positivity
    · rw [div_le_one (by norm_num)]
      exact hmaxq
  · rw [List.getD_eq_default _ _ (by rw [hlength]; omega)]
    norm_num

/-- C8 witness: a reference pixel with channels (128, 40, 200) calibrates to
alpha 200/255. -/
theorem mask_calibration_apply :
    (calibrateMask 1 1 [128, 40, 200, 255]).alphas.getD 0 0 = 200/255 := by
  have h := (mask_calibration 1 1 [128, 40, 200, 255] (by decide)).2.2.2.1 0
    (by norm_num)
  rw [h]
  show ((200 : ℕ) : ℚ) / 255 = 200/255
  norm_num

/-- C5: output range safety. A successful call keeps every byte of the buffer
in `[0, 255]`; the raw unblend result is clamped, so a negative raw value
stores 0 and a raw value above 255 stores 255, and the per-channel result
never exceeds 255. -/
theorem output_range_safety (img : ImageData) (cfg : Config) (masks : MasksState)
    (out : ImageData)
    (hdata : ∀ x ∈ img.data, x ≤ 255)
    (hok : removeWatermark img cfg masks = Except.ok out) :
    (∀ x ∈ out.data, x ≤ 255)
    ∧ (∀ (alpha : ℚ) (v : Nat), ((v : ℚ) - alpha * 255) / (1 - alpha) < 0 →
        unblendChannel alpha v = 0)
    ∧ (∀ (alpha : ℚ) (v : Nat), 255 < ((v : ℚ) - alpha * 255) / (1 - alpha) →
        unblendChannel alpha v = 255)
    ∧ (∀ (alpha : ℚ) (v : Nat), unblendChannel alpha v ≤ 255) := by
  refine ⟨?_, fun a v hv => unblendChannel_clamps_low hv,
    fun a v hv => unblendChannel_clamps_high hv,
    fun a v => unblendChannel_le_255 a v⟩
  cases hreq : requiredMask cfg masks img.width img.height with
  | none =>
    rw [removeWatermark_none hreq] at hok
    exact Except.noConfusion hok
  | some mask =>
    rcases removeWatermark_ok_cases hreq hok with he | ⟨hf1, hf2, he⟩
    · rw [he]
      exact hdata
    · rw [he]
      intro x hx
      rcases List.getElem_of_mem hx with ⟨i, hi, hie⟩
      have h1 : x = (processAll mask cfg.alphaGain img.width img.height
          (img.width - marginOf (resolveMode cfg.forceMode img.width img.height)
            - mask.width)
          (img.height - marginOf (resolveMode cfg.forceMode img.width img.height)
            - mask.height)
          img.data).getD i 0 := by
        rw [List.getD_eq_getElem _ _ hi]
        exact hie.symm
      rw [h1]
      calc (processAll mask cfg.alphaGain img.width img.height _ _
            img.data).getD i 0
          ≤ img.data.getD i 0 :=
            getD_processAll_le _ _ _ _ _ _ _ (getD_le_255 hdata) i
        _ ≤ 255 := getD_le_255 hdata i

/-- C5 witness: the clamp conjunct applied at alpha 1/2 and observed 0, whose
raw unblend result is negative. -/
theorem output_range_safety_apply : unblendChannel (1/2) 0 = 0 :=
  (output_range_safety ⟨1, 1, [0, 0, 0, 0]⟩ ⟨Mode.small, 1⟩
    ⟨some ⟨1, 1, [1/2]⟩, none⟩ ⟨1, 1, [0, 0, 0, 0]⟩ (by decide) rfl).2.1
    (1/2) 0 (by norm_num)

/-- C10: the pass never brightens. For positive gain, mask alphas in `[0,1]`
and a byte-valued buffer, every byte of a successful output is at most the
corresponding input byte. -/
theorem never_brightens (img : ImageData) (cfg : Config) (masks : MasksState)
    (out : ImageData)
    (hgain : 0 < cfg.alphaGain)
    (halphas : ∀ mask, requiredMask cfg masks img.width img.height = some mask →
      ∀ i, 0 ≤ mask.alphas.getD i 0 ∧ mask.alphas.getD i 0 ≤ 1)
    (hdata : ∀ x ∈ img.data, x ≤ 255)
    (hok : removeWatermark img cfg masks = Except.ok out) :
    ∀ p, out.data.getD p 0 ≤ img.data.getD p 0 := by
  intro p
  cases hreq : requiredMask cfg masks img.width img.height with
  | none =>
    rw [removeWatermark_none hreq] at hok
    exact Except.noConfusion hok
  | some mask =>
    rcases removeWatermark_ok_cases hreq hok with he | ⟨hf1, hf2, he⟩
    · rw [he]
    · rw [he]
      exact getD_processAll_le _ _ _ _ _ _ _ (getD_le_255 hdata) p

/-- C10 witness: on the concrete 33×33 buffer of 252-bytes, the byte under the
mask is not brightened. -/
theorem never_brightens_apply : c10Out.data.getD 0 0 ≤ c10Img.data.getD 0 0 := by
  refine never_brightens c10Img ⟨Mode.small, 1⟩ ⟨some c10Mask, none⟩ c10Out
    (by norm_num) ?_ ?_ rfl 0
  · intro mask hm i
    have h0 : requiredMask ⟨Mode.small, 1⟩ ⟨some c10Mask, none⟩
        c10Img.width c10Img.height = some c10Mask := rfl
    have h1 := h0.symm.trans hm
    injection h1 with h2
    subst h2
    match i with
    | 0 =>
      constructor <;> norm_num [c10Mask, List.getD_cons_zero]
    | (n + 1) =>
      constructor <;> simp [c10Mask, List.getD]
  · intro x hx
    have hx2 : x ∈ List.replicate 4356 252 := hx
    rw [List.eq_of_mem_replicate hx2]
    norm_num

/-- C9: frame property. A successful call only changes the R, G, B bytes of
pixels inside the watermark rectangle; every other byte — including every
alpha byte — is unchanged. -/
theorem frame_property (img : ImageData) (cfg : Config) (masks : MasksState)
    (mask : Mask) (out : ImageData) (p : Nat)
    (hm : requiredMask cfg masks img.width img.height = some mask)
    (hok : removeWatermark img cfg masks = Except.ok out)
    (hp : ∀ my mx c, my < mask.height → mx < mask.width → c < 3 →
      p ≠ (((img.height - marginOf (resolveMode cfg.forceMode img.width img.height)
              - mask.height) + my) * img.width
          + ((img.width - marginOf (resolveMode cfg.forceMode img.width img.height)
              - mask.width) + mx)) * 4 + c) :
    out.data.getD p 0 = img.data.getD p 0 := by
  rcases removeWatermark_ok_cases hm hok with he | ⟨hf1, hf2, he⟩
  · rw [he]
  · rw [he]
    exact getD_processAll_ne _ _ _ _ _ _ _
      (fun my hmy mx hmx hx hy c hc => hp my mx c hmy hmx hc)

/-- C9 witness: byte 3 (the alpha byte of the covered pixel) of the concrete
33×33 buffer is unchanged by the pass. -/
theorem frame_property_apply : c9Out.data.getD 3 0 = c9Img.data.getD 3 0 := by
  refine frame_property c9Img ⟨Mode.small, 1⟩ ⟨some c9Mask, none⟩ c9Mask c9Out 3
    rfl rfl ?_
  intro my mx c hmy hmx hc
  have hmy0 : my = 0 := by
    have : c9Mask.height = 1 := rfl
    omega
  have hmx0 : mx = 0 := by
    have : c9Mask.width = 1 := rfl
    omega
  subst hmy0
  subst hmx0
  norm_num [c9Img, c9Mask, marginOf, resolveMode]
  omega

/-- C7: threshold skip. A mask pixel whose effective alpha (mask alpha times
gain) is strictly below 0.002 leaves the R, G, B bytes of its image pixel
unchanged. -/
theorem threshold_skip (img : ImageData) (cfg : Config) (masks : MasksState)
    (mask : Mask) (mx my c : Nat)
    (hm : requiredMask cfg masks img.width img.height = some mask)
    (hfw : marginOf (resolveMode cfg.forceMode img.width img.height) + mask.width
        ≤ img.width)
    (hfh : marginOf (resolveMode cfg.forceMode img.width img.height) + mask.height
        ≤ img.height)
    (hmx : mx < mask.width) (hmy : my < mask.height) (hc : c < 3)
    (hlen : img.data.length = img.width * img.height * 4)
    (hth : mask.alphas.getD (my * mask.width + mx) 0 * cfg.alphaGain < 2/1000) :
    ∃ out, removeWatermark img cfg masks = Except.ok out ∧
      out.data.getD
        ((((img.height - marginOf (resolveMode cfg.forceMode img.width img.height)
              - mask.height) + my) * img.width
          + ((img.width - marginOf (resolveMode cfg.forceMode img.width img.height)
              - mask.width) + mx)) * 4 + c) 0
      = img.data.getD
        ((((img.height - marginOf (resolveMode cfg.forceMode img.width img.height)
              - mask.height) + my) * img.width
          + ((img.width - marginOf (resolveMode cfg.forceMode img.width img.height)
              - mask.width) + mx)) * 4 + c) 0 := by
  refine ⟨_, removeWatermark_fit hm hfw hfh, ?_⟩
  dsimp only
  have hmpos := marginOf_pos (resolveMode cfg.forceMode img.width img.height)
  rw [getD_processAll_point _ _ _ _ _ _ _ _ _ hmx hmy (by omega) (by omega) hc hlen]
  unfold pixelOutcome
  dsimp only
  rw [if_pos hth]

/-- C7 witness: the constant-0.001 mask with gain 1 leaves the covered byte of
the concrete 33×33 buffer unchanged. -/
theorem threshold_skip_apply : c7Out.data.getD 0 0 = c7Img.data.getD 0 0 := by
  obtain ⟨out, h1, h2⟩ := threshold_skip c7Img ⟨Mode.small, 1⟩
    ⟨some c7Mask, none⟩ c7Mask 0 0 0 rfl
    (by decide) (by decide) (by decide) (by decide) (by decide)
    (by show (List.replicate 4356 100).length = 33 * 33 * 4
        rw [List.length_replicate])
    (by show (1 : ℚ)/1000 * 1 < 2/1000
        norm_num)
  have h0 : removeWatermark c7Img ⟨Mode.small, 1⟩ ⟨some c7Mask, none⟩
      = Except.ok c7Out := rfl
  have h3 := h1.symm.trans h0
  injection h3 with h4
  rw [← h4]
  exact h2

/-- C1 (amended): round-trip inversion. If a covered channel byte was
generated by the forward source-over formula (any integer within 1/2 of
`alpha*255 + (1-alpha)*original`), the mask alpha at that pixel is at least
0.002 and below 2/3, and the gain is 1.0, then `removeWatermark` recovers
`original` at that byte within ±1. (The spec claimed this for every alpha
below 0.99; the counterexample below shows it fails already at alpha 0.98,
where the forward rounding error is amplified by 1/(1-alpha) = 50.) -/
theorem roundtrip_inversion (img : ImageData) (cfg : Config) (masks : MasksState)
    (mask : Mask) (mx my c o : Nat) (alpha : ℚ)
    (hm : requiredMask cfg masks img.width img.height = some mask)
    (hgain : cfg.alphaGain = 1)
    (hfw : marginOf (resolveMode cfg.forceMode img.width img.height) + mask.width
        ≤ img.width)
    (hfh : marginOf (resolveMode cfg.forceMode img.width img.height) + mask.height
        ≤ img.height)
    (hmx : mx < mask.width) (hmy : my < mask.height) (hc : c < 3)
    (hlen : img.data.length = img.width * img.height * 4)
    (halpha : mask.alphas.getD (my * mask.width + mx) 0 = alpha)
    (h1 : 2/1000 ≤ alpha) (h2 : alpha < 2/3) (ho : o ≤ 255)
    (hobs : |((img.data.getD
        ((((img.height - marginOf (resolveMode cfg.forceMode img.width img.height)
              - mask.height) + my) * img.width
          + ((img.width - marginOf (resolveMode cfg.forceMode img.width img.height)
              - mask.width) + mx)) * 4 + c) 0 : ℚ))
        - (alpha * 255 + (1 - alpha) * o)| ≤ 1/2) :
    ∃ out, removeWatermark img cfg masks = Except.ok out ∧
      ((out.data.getD
        ((((img.height - marginOf (resolveMode cfg.forceMode img.width img.height)
              - mask.height) + my) * img.width
          + ((img.width - marginOf (resolveMode cfg.forceMode img.width img.height)
              - mask.width) + mx)) * 4 + c) 0 : ℤ) - o).natAbs ≤ 1 := by
  refine ⟨_, removeWatermark_fit hm hfw hfh, ?_⟩
  dsimp only
  have hmpos := marginOf_pos (resolveMode cfg.forceMode img.width img.height)
  rw [getD_processAll_point _ _ _ _ _ _ _ _ _ hmx hmy (by omega) (by omega) hc hlen]
  unfold pixelOutcome
  dsimp only
  rw [halpha, hgain, mul_one]
  rw [if_neg (by linarith), if_neg (by linarith)]
  exact unblendChannel_roundtrip h1 h2 ho hobs

/-- C1 witness: alpha 1/2, original 100, observed 178 = round(0.5·255+0.5·100);
the pass recovers 100 within ±1 at the covered byte. -/
theorem roundtrip_inversion_apply :
    ((c1Out.data.getD 0 0 : ℤ) - 100).natAbs ≤ 1 := by
  obtain ⟨out, hr1, hr2⟩ := roundtrip_inversion c1Img ⟨Mode.small, 1⟩
    ⟨some c1Mask, none⟩ c1Mask 0 0 0 100 (1/2) rfl rfl
    (by decide) (by decide) (by decide) (by decide) (by decide)
    (by show (List.replicate 4356 178).length = 33 * 33 * 4
        rw [List.length_replicate])
    (by show (1 : ℚ)/2 = 1/2
        rfl)
    (by norm_num) (by norm_num) (by norm_num)
    (by show |((178 : ℕ) : ℚ) - ((1 : ℚ)/2 * 255 + (1 - 1/2) * ((100 : ℕ) : ℚ))| ≤ 1/2
        push_cast
        rw [abs_le]
        norm_num)
  have h0 : removeWatermark c1Img ⟨Mode.small, 1⟩ ⟨some c1Mask, none⟩
      = Except.ok c1Out := rfl
  have h3 := hr1.symm.trans h0
  injection h3 with h4
  rw [← h4]
  exact hr2

/-- C1 counterexample to the claim as stated: with mask alpha 0.98 (which is
at least 0.002 and below 0.99), gain 1.0 and original 100, the observed byte
generated by the forward formula is 252 = round(0.98·255 + 0.02·100), yet the
pass recovers 105, which differs from the original by 5 > 1. -/
theorem roundtrip_inversion_fails_near_opaque :
    (removeWatermark c1xImg ⟨Mode.small, 1⟩ ⟨some c1xMask, none⟩).map
        (fun out => out.data.getD 0 0) = Except.ok 105
    ∧ c1xImg.data.getD 0 0 = 252
    ∧ c1xMask.alphas.getD 0 0 = 49/50
    ∧ roundHalfEven ((49/50 : ℚ) * 255 + (1 - 49/50) * 100) = 252
    ∧ ((2/1000 : ℚ) ≤ 49/50 ∧ (49/50 : ℚ) < 99/100)
    ∧ ¬(((105 : ℤ) - 100).natAbs ≤ 1) := by
  refine ⟨?_, rfl, rfl, ?_, ⟨by norm_num, by norm_num⟩, by decide⟩
  · with_unfolding_all rfl
  · have he : ((49:ℚ)/50 * 255 + (1 - 49/50) * 100) = 2519/10 := by norm_num
    rw [he]
    unfold roundHalfEven
    have hf : ⌊(2519 : ℚ)/10⌋ = 251 := by
      rw [Int.floor_eq_iff]
      norm_num
    rw [hf]
    norm_num

end GeminiWatermark
